import Mathlib

/-!
A verification development for the `pdf_to_html` converter
(`src/pdf_to_html.py`).  The Python source is shallowly embedded: float
arithmetic is modelled over `ℚ` (the transcendental calls `math.atan2`,
`math.degrees` and `math.cos` are modelled over `ℝ`, respectively taken as an
abstract parameter), Python dicts are modelled as insertion-ordered
association lists, and raising/propagating exceptions is modelled with
`Except`.  Effectful steps of the top-level driver (writing the output file,
cleaning the scratch directory) are recorded in an explicit effect record.
-/

namespace PdfToHtml

/-- Rounding to two decimal places, the model of Python `round(x, 2)` as it is
used throughout `pdf_to_html.py` (all quantities are small reals; the model
works over `ℚ`). -/
def round2 (q : ℚ) : ℚ := ((round (q * 100) : ℤ) : ℚ) / 100

/-- Model of `'+' in s` on Python strings. -/
def hasPlus (s : String) : Bool := s.data.any (fun c => c == '+')

/-! ## Rotation normalization (src/pdf_to_html.py lines 148-152)

`degrees = int(math.degrees(math.atan2(*rotation)))` followed by
`html_degrees = 360 - (degrees - 90)` and a single wrap-around subtraction. -/

/-- Truncation toward zero, the model of Python `int()` applied to a float. -/
noncomputable def trunc (x : ℝ) : ℤ := if 0 ≤ x then ⌊x⌋ else ⌈x⌉

/-- Model of `math.atan2(y, x)`: the argument of the complex number `x + y*I`,
which lies in `(-π, π]` and is `0` at the origin, exactly as the C library
`atan2` (up to the `atan2(±0.0, x<0)` signed-zero distinction, which only
moves the value between the two endpoints `±π`). -/
noncomputable def atan2 (y x : ℝ) : ℝ := Complex.arg ⟨x, y⟩

/-- Model of `int(math.degrees(math.atan2(*rotation)))` for a line direction
vector `rotation = line["dir"]` (note the code passes `rotation[0]` as the
`y` argument of `atan2` and `rotation[1]` as the `x` argument). -/
noncomputable def lineDegrees (dir : ℝ × ℝ) : ℤ :=
  trunc (atan2 dir.1 dir.2 * (180 / Real.pi))

/-- Model of lines 150-152: `html_degrees = 360 - (degrees - 90)`, then
`if html_degrees >= 360: html_degrees -= 360`. -/
def htmlDegrees (d : ℤ) : ℤ :=
  let h := 360 - (d - 90)
  if 360 ≤ h then h - 360 else h

/-! ## Text run extraction (src/pdf_to_html.py lines 138-215)

The page is the nested structure produced by `page.get_text("dict")`:
blocks, text blocks holding lines, lines holding spans.  A line's direction
vector only enters through `int(math.degrees(math.atan2(*line["dir"])))`,
a float computation modelled above by `lineDegrees`; the embedded line
record therefore carries that integer (`dirDeg`) directly.  `math.cos`
composed with `math.radians` is an abstract parameter `cosd : ℤ → ℚ`, and
the `pymupdf` width measurer `font_buffers[xref].text_length(text, size)`
is an abstract parameter `measure` whose `none` result models a raised
exception. -/

/-- A span bounding box `(x0, y0, x1, y1)` as delivered by `pymupdf`. -/
structure BBox where
  x0 : ℚ
  y0 : ℚ
  x1 : ℚ
  y1 : ℚ
deriving DecidableEq, Repr

/-- One span record of `page.get_text("dict")`: the fields read by
`extract_text_blocks`. -/
structure Span where
  font : String
  size : ℚ
  flags : Nat
  color : Nat
  text : String
  bbox : BBox
  origin : ℚ × ℚ
deriving DecidableEq, Repr

/-- One line record: the integer degree value derived from `line["dir"]`
(see `lineDegrees`) and the line's spans. -/
structure Line where
  dirDeg : ℤ
  spans : List Span
deriving DecidableEq, Repr

/-- One block record: an image block carries no `"lines"` key and is
skipped; a text block carries lines. -/
inductive Block where
  | image
  | text (lines : List Line)
deriving DecidableEq, Repr

/-- The per-page inputs of `extract_text_blocks`: `page.get_fonts()` as a
list of `(xref, name)` pairs (`font[0]`, `font[3]`) and the
`page.get_text("dict")` block list. -/
structure PageData where
  fonts : List (ℤ × String)
  blocks : List Block
deriving DecidableEq, Repr

/-- The abstract width measurer: `measure xref text size` is
`font_buffers[xref].text_length(text, size)`, with `none` standing for any
raised exception (missing buffer, missing glyph data, lookup error). -/
def MeasureFn : Type := ℤ → String → ℚ → Option ℚ

/-- Model of the font lookup loop (lines 159-162): scan `page_fonts` for the
first entry whose name (`font[3]`) equals the span's font and take its xref
(`font[0]`); when no entry matches, the Python variable `font_xref` keeps
whatever value it had from an earlier span (`cur`), and is unbound
(`cur = none`) if no span has matched yet. -/
def resolveXref (pageFonts : List (ℤ × String)) (cur : Option ℤ) (name : String) :
    Option ℤ :=
  match pageFonts.find? (fun f => f.2 == name) with
  | some f => some f.1
  | none => cur

/-- Model of the display width computation (lines 176-182). -/
def displayWidth (cosd : ℤ → ℚ) (scale : ℚ) (deg : ℤ) (b : BBox) : ℚ :=
  let w := round2 ((b.x1 - b.x0) * scale)
  if deg ≠ 0 then
    if deg = 90 ∨ deg = 270 then |round2 ((b.y1 - b.y0) * scale)|
    else if deg ≠ 180 then |w / cosd deg|
    else w
  else w

/-- One emitted text block dict (lines 200-213).  The extra field
`calculated_width` records the Python local `calculated_width` (the measured
width, or the geometry fallback after a measurement exception) so that the
relation between `width`, the measurement and `letter_spacing` can be
stated; the Python dict does not carry it. -/
structure TextRun where
  text : String
  x : ℚ
  y : ℚ
  font_name : String
  font_xref : ℤ
  font_size : ℚ
  font_weight : String
  font_style : String
  color : Nat
  width : ℚ
  letter_spacing : ℚ
  rotation : ℤ
  calculated_width : ℚ
deriving DecidableEq, Repr

/-- The per-span computation of `extract_text_blocks` (lines 154-213) for a
nonempty-text span whose resolved `font_xref` is `xref`. -/
def runOf (cosd : ℤ → ℚ) (measure : MeasureFn) (scale : ℚ) (deg : ℤ) (xref : ℤ)
    (s : Span) : TextRun :=
  let font_size := round2 (s.size * scale)
  let width := displayWidth cosd scale deg s.bbox
  let calculated_width := (measure xref s.text font_size).getD width
  let diff := width - calculated_width
  let letter_spacing := if 1 < |diff| then round2 (diff / (s.text.length : ℚ)) else 0
  { text := s.text
    x := if deg ≠ 0 then round2 (s.origin.1 * scale) else round2 (s.bbox.x0 * scale)
    y := if deg ≠ 0 then round2 (s.origin.2 * scale) else round2 (s.bbox.y0 * scale)
    font_name := s.font
    font_xref := xref
    font_size := font_size
    font_weight := if s.flags.testBit 4 then "bold" else "normal"
    font_style := if s.flags.testBit 1 then "italic" else "normal"
    color := s.color
    width := width
    letter_spacing := letter_spacing
    rotation := deg
    calculated_width := calculated_width }

/-- The only exception `extract_text_blocks` itself can raise per run: the
`UnboundLocalError` on reading `font_xref` in the emitted dict (line 205)
when no font-table entry has matched any span so far. -/
inductive ExtractErr where
  | nameError
deriving DecidableEq, Repr

/-- The span loop (lines 154-213).  `cur` threads the Python local
`font_xref` across spans: it is updated by the font lookup of every span
(also of empty-text spans, which are then skipped), and reading it while
unbound raises. -/
def processSpans (pageFonts : List (ℤ × String)) (cosd : ℤ → ℚ) (measure : MeasureFn)
    (scale : ℚ) (deg : ℤ) :
    List Span → Option ℤ → Except ExtractErr (Option ℤ × List TextRun)
  | [], cur => .ok (cur, [])
  | s :: rest, cur =>
    let xref? := resolveXref pageFonts cur s.font
    if s.text = "" then processSpans pageFonts cosd measure scale deg rest xref?
    else
      match xref? with
      | none => .error .nameError
      | some x =>
        match processSpans pageFonts cosd measure scale deg rest xref? with
        | .error e => .error e
        | .ok (cur', runs) => .ok (cur', runOf cosd measure scale deg x s :: runs)

/-- The line loop (lines 147-213): each line contributes the normalized
rotation of its direction vector to all of its spans. -/
def processLines (pageFonts : List (ℤ × String)) (cosd : ℤ → ℚ) (measure : MeasureFn)
    (scale : ℚ) :
    List Line → Option ℤ → Except ExtractErr (Option ℤ × List TextRun)
  | [], cur => .ok (cur, [])
  | l :: rest, cur =>
    match processSpans pageFonts cosd measure scale (htmlDegrees l.dirDeg) l.spans cur with
    | .error e => .error e
    | .ok (cur1, runs1) =>
      match processLines pageFonts cosd measure scale rest cur1 with
      | .error e => .error e
      | .ok (cur2, runs2) => .ok (cur2, runs1 ++ runs2)

/-- The block loop (lines 145-213): image blocks (no `"lines"` key) are
skipped. -/
def processBlocks (pageFonts : List (ℤ × String)) (cosd : ℤ → ℚ) (measure : MeasureFn)
    (scale : ℚ) :
    List Block → Option ℤ → Except ExtractErr (Option ℤ × List TextRun)
  | [], cur => .ok (cur, [])
  | .image :: rest, cur => processBlocks pageFonts cosd measure scale rest cur
  | .text lines :: rest, cur =>
    match processLines pageFonts cosd measure scale lines cur with
    | .error e => .error e
    | .ok (cur1, runs1) =>
      match processBlocks pageFonts cosd measure scale rest cur1 with
      | .error e => .error e
      | .ok (cur2, runs2) => .ok (cur2, runs1 ++ runs2)

/-- Model of `Extractors.extract_text_blocks` (lines 138-215). -/
def extract_text_blocks (page : PageData) (cosd : ℤ → ℚ) (measure : MeasureFn)
    (scale : ℚ) : Except ExtractErr (List TextRun) :=
  match processBlocks page.fonts cosd measure scale page.blocks none with
  | .error e => .error e
  | .ok (_, runs) => .ok runs

/-- All span records of one block, in traversal order. -/
def blockSpans : Block → List Span
  | .image => []
  | .text lines => (lines.map Line.spans).flatten

/-- All span records of a page, in traversal order. -/
def pageSpans (page : PageData) : List Span :=
  (page.blocks.map blockSpans).flatten

/-! ## Font resolution (src/pdf_to_html.py lines 18-115)

`FontOps.extract_fonts_from_pdf` first runs the external decomposition tool
(`generate_fonts`, fatal on non-zero exit), collects the document font
table `data` as an insertion-ordered dict `xref -> name`, then walks the
produced `.ttf` and `.otf` files (already in `natsorted` order in the model
inputs), consuming font-table entries.  A file is abstracted to its
family-name metadata (for `.ttf`) and a flag telling whether the
`fontTools` open/`font.save` conversion to woff succeeds; the woff payload
itself is abstracted to `Unit`. -/

/-- A produced `.ttf` font file: its `name` table family string and whether
the `TTFont` open / woff conversion succeeds. -/
structure TtfFile where
  family : String
  convOk : Bool
deriving DecidableEq, Repr

/-- A produced `.otf` font file: the code reads no name metadata from it,
so only the conversion success flag remains. -/
structure OtfFile where
  convOk : Bool
deriving DecidableEq, Repr

/-- The exceptions `extract_fonts_from_pdf` can raise. -/
inductive FontErr where
  /-- `subprocess.run(..., check=True)` on a non-zero tool exit (line 30). -/
  | toolFail
  /-- `list(data.values())[0]` on an empty dict (line 54). -/
  | indexErr
  /-- a `fontTools` open or woff conversion failure (lines 49, 65-67 and 79, 92-94). -/
  | convFail
  /-- `UnboundLocalError` reading `font_xref` in the otf loop (line 90) when
  no ttf file was processed and no remaining entry carries a `+`. -/
  | nameErr
deriving DecidableEq, Repr

/-- One value of the returned `fonts` dict (lines 71-76, 98-103, 108-113). -/
structure FontEntry where
  name : Option String
  data : Option Unit
  xref : Option ℤ
  format : Option String
deriving DecidableEq, Repr

/-- A `FontOps.BUFFERS` value: `pymupdf.Font(fontbuffer=...)` for an
extracted file, `pymupdf.Font(fontname=name)` for a non-embedded font. -/
inductive FontBuf where
  | fromBuffer
  | fromName (name : String)
deriving DecidableEq, Repr

/-- Insertion-ordered-dict insert: overwrite in place when the key exists,
append otherwise (Python dict assignment). -/
def dinsert {α β : Type} [DecidableEq α] (k : α) (v : β) :
    List (α × β) → List (α × β)
  | [] => [(k, v)]
  | (k', v') :: rest => if k = k' then (k, v) :: rest else (k', v') :: dinsert k v rest

/-- Scan a list for the first element satisfying `p`; return it together
with the list with that element removed.  This is the model of the Python
pattern `for xref, name in data.items(): if ...: data.pop(xref); break`. -/
def popFirst {α : Type} (p : α → Bool) : List α → Option (α × List α)
  | [] => none
  | a :: rest =>
    if p a then some (a, rest)
    else (popFirst p rest).map (fun r => (r.1, a :: r.2))

/-- The mutable state of `extract_fonts_from_pdf`: the remaining font-table
dict `data`, the `FontOps.BUFFERS` dict, the result dict `fonts`, the local
variable `font_xref` (`fx`, with outer `none` = still unbound), and a ghost
trace `consumed` recording each popped font-table entry together with the
`font_xref` value the code bound for it. -/
structure FontState where
  data : List (ℤ × String)
  buffers : List (Option ℤ × FontBuf)
  fonts : List (Option ℤ × FontEntry)
  fx : Option (Option ℤ)
  consumed : List ((ℤ × String) × Option ℤ)
deriving DecidableEq, Repr

/-- One step of building the font table (lines 41-44):
`if xref not in data: data[xref] = font_name`. -/
def tableInsert (acc : List (ℤ × String)) (f : ℤ × String) : List (ℤ × String) :=
  if acc.any (fun e => e.1 == f.1) then acc else acc ++ [f]

/-- Model of lines 39-44: the document font table, built per page from
`page.get_fonts()`. -/
def buildFontTable (pages : List (List (ℤ × String))) : List (ℤ × String) :=
  pages.foldl (fun acc pg => pg.foldl tableInsert acc) []

/-- The shared tail of one `.ttf` iteration once the family name `fam` to
match is fixed (lines 56-76): pop the first remaining font-table entry
whose name equals `fam` (leaving `font_xref = None` when none matches),
store the measurer buffer, convert to woff (a failure raises and aborts
the whole resolution), and record the result entry. -/
def ttfBind (st : FontState) (fam : String) (convOk : Bool) : Except FontErr FontState :=
  match popFirst (fun p => p.2 == fam) st.data with
  | some (e, rest) =>
    if convOk then
      .ok { data := rest
            buffers := dinsert (some e.1) FontBuf.fromBuffer st.buffers
            fonts := dinsert (some e.1) ⟨some fam, some (), some e.1, some "woff"⟩ st.fonts
            fx := some (some e.1)
            consumed := st.consumed ++ [(e, some e.1)] }
    else .error FontErr.convFail
  | none =>
    if convOk then
      .ok { data := st.data
            buffers := dinsert none FontBuf.fromBuffer st.buffers
            fonts := dinsert none ⟨some fam, some (), none, some "woff"⟩ st.fonts
            fx := some none
            consumed := st.consumed }
    else .error FontErr.convFail

/-- One iteration of the `.ttf` loop (lines 48-76): read the family name,
falling back to the first remaining font-table value when the name carries
no `+` marker (`IndexError` on an empty dict), then continue with
`ttfBind`. -/
def ttfStep (st : FontState) (f : TtfFile) : Except FontErr FontState :=
  if hasPlus f.family then ttfBind st f.family f.convOk
  else
    match st.data.head? with
    | some e => ttfBind st e.2 f.convOk
    | none => .error FontErr.indexErr

/-- One iteration of the `.otf` loop (lines 78-103): no usable name
metadata, so pop the first remaining entry whose name carries a `+`; when
none does, the stale `font_xref` from the previous iteration is reused
(raising `UnboundLocalError` when it is still unbound) and the recorded
name is `None`. -/
def otfStep (st : FontState) (f : OtfFile) : Except FontErr FontState :=
  match popFirst (fun p => hasPlus p.2) st.data with
  | some (e, rest) =>
    if f.convOk then
      .ok { data := rest
            buffers := dinsert (some e.1) FontBuf.fromBuffer st.buffers
            fonts := dinsert (some e.1) ⟨some e.2, some (), some e.1, some "woff"⟩ st.fonts
            fx := some (some e.1)
            consumed := st.consumed ++ [(e, some e.1)] }
    else .error FontErr.convFail
  | none =>
    match st.fx with
    | none => .error FontErr.nameErr
    | some xref? =>
      if f.convOk then
        .ok { data := st.data
              buffers := dinsert xref? FontBuf.fromBuffer st.buffers
              fonts := dinsert xref? ⟨none, some (), xref?, some "woff"⟩ st.fonts
              fx := some xref?
              consumed := st.consumed }
      else .error FontErr.convFail

/-- One iteration of the non-embedded trailer (lines 106-113): bind a
still-unconsumed font-table entry to a named-system-font measurer, with
null payload and format. -/
def sysEntry (acc : FontState) (e : ℤ × String) : FontState :=
  { acc with
    buffers := dinsert (some e.1) (FontBuf.fromName e.2) acc.buffers
    fonts := dinsert (some e.1) ⟨some e.2, none, some e.1, none⟩ acc.fonts }

/-- The non-embedded trailer loop (lines 106-113). -/
def sysStep (st : FontState) : FontState :=
  st.data.foldl sysEntry st

/-- Model of `FontOps.extract_fonts_from_pdf` (lines 32-115), composed with
the `generate_fonts` call it makes first (lines 21-30, fatal on a non-zero
tool exit).  Inputs: the tool success flag, the per-page
`page.get_fonts()` lists, and the produced font files in `natsorted`
order.  Returns the `fonts` dict together with the ghost consumption
trace. -/
def extract_fonts_from_pdf (toolOk : Bool) (pages : List (List (ℤ × String)))
    (ttfs : List TtfFile) (otfs : List OtfFile) :
    Except FontErr (List (Option ℤ × FontEntry) × List ((ℤ × String) × Option ℤ)) :=
  if ¬toolOk then .error FontErr.toolFail
  else
    match ttfs.foldlM ttfStep ⟨buildFontTable pages, [], [], none, []⟩ with
    | .error e => .error e
    | .ok st1 =>
      match otfs.foldlM otfStep st1 with
      | .error e => .error e
      | .ok st2 => .ok ((sysStep st2).fonts, (sysStep st2).consumed)

/-! ## The document driver (src/pdf_to_html.py lines 323-371)

`pdf_to_html` creates the scratch `TemporaryDirectory`, opens the document,
resolves fonts (which runs the external tool), processes every page in
order, generates the HTML, writes the output file and finally calls
`temp_dir.cleanup()`.  There is no `try/finally`: any exception propagates
out of the function before the write and before the cleanup call.  The
effect record tracks whether the output file was written and whether the
in-function cleanup call executed. -/

/-- Exceptions escaping `pdf_to_html`. -/
inductive DocErr where
  /-- `pymupdf.open` failure (line 333). -/
  | openFail
  /-- an exception out of `FontOps.extract_fonts_from_pdf` (line 338). -/
  | fontErr (e : FontErr)
  /-- an exception out of a page's `extract_text_blocks` (line 352). -/
  | pageErr (e : ExtractErr)
deriving DecidableEq, Repr

/-- Observable effects of one `pdf_to_html` call: whether the output HTML
file was written (line 365-366) and whether `temp_dir.cleanup()` was
executed (line 371). -/
structure Effects where
  written : Bool
  cleaned : Bool
deriving DecidableEq, Repr

/-- The whole input of one conversion job, with the external collaborators
abstracted: document open success, decomposition-tool success, the per-page
font tables, the produced font files, the page text structures, and the
trig/measure oracles. -/
structure DocInput where
  openOk : Bool
  toolOk : Bool
  fontPages : List (List (ℤ × String))
  ttfs : List TtfFile
  otfs : List OtfFile
  pages : List PageData
  cosd : ℤ → ℚ
  measure : MeasureFn

/-- Model of `pdf_to_html` (lines 323-371).  Page rasterization
(`extract_page_image`) has no claim-relevant failure mode and is not
modelled; `generate_html` is pure string assembly and is modelled by
reaching the write.  The returned effects record what happened before the
exception (if any) escaped. -/
def pdf_to_html (inp : DocInput) (scale : ℚ) : Except DocErr Unit × Effects :=
  if ¬inp.openOk then (.error DocErr.openFail, ⟨false, false⟩)
  else
    match extract_fonts_from_pdf inp.toolOk inp.fontPages inp.ttfs inp.otfs with
    | .error e => (.error (DocErr.fontErr e), ⟨false, false⟩)
    | .ok _fonts =>
      match inp.pages.mapM (fun pg => extract_text_blocks pg inp.cosd inp.measure scale) with
      | .error e => (.error (DocErr.pageErr e), ⟨false, false⟩)
      | .ok _pagesData => (.ok (), ⟨true, true⟩)

/-! ## Concrete evaluation inputs

Closed inputs on which the embedded functions are evaluated. -/

/-- A one-span page: horizontal line (`dir = (1, 0)`, so
`int(degrees(atan2(1, 0))) = 90` and the normalized rotation is `0`), span
`"Hello"` with bbox `(10, 20, 35, 30)` and origin `(10, 28)`, font `F1`
with xref `7`. -/
def wspan : Span :=
  { font := "F1", size := 5, flags := 0, color := 0, text := "Hello",
    bbox := ⟨10, 20, 35, 30⟩, origin := (10, 28) }

/-- The page holding `wspan`. -/
def wpage : PageData :=
  { fonts := [(7, "F1")], blocks := [Block.text [⟨90, [wspan]⟩]] }

/-- A trivial cosine oracle (never consulted at rotation `0`). -/
def wcosd : ℤ → ℚ := fun _ => 1

/-- A measurer that always returns width `45`. -/
def wmeasure : MeasureFn := fun _ _ _ => some 45

/-- A measurer that always raises. -/
def wmeasureFail : MeasureFn := fun _ _ _ => none

/-- The run extracted from `wpage` at scale `2` under `wmeasure`:
display width `50`, measured `45`, discrepancy `5 > 1.0`, letter spacing
`round(5 / 5, 2) = 1`. -/
def wrun : TextRun :=
  ⟨"Hello", 20, 40, "F1", 7, 10, "normal", "normal", 0, 50, 1, 0, 45⟩

/-- The run extracted from `wpage` at scale `2` under `wmeasureFail`:
the measurement falls back to the display width `50`, so the letter
spacing is `0`. -/
def wrunFail : TextRun :=
  ⟨"Hello", 20, 40, "F1", 7, 10, "normal", "normal", 0, 50, 0, 0, 50⟩

/-- A one-font document: page font table with xref `1`. -/
def wfontPages : List (List (ℤ × String)) := [[(1, "AAAAAA+F")]]

/-- One produced `.ttf` file whose subsetted family name matches the table
entry and whose conversion succeeds. -/
def wttfs : List TtfFile := [⟨"AAAAAA+F", true⟩]

/-- The resolution result for `wfontPages`/`wttfs`. -/
def wfonts : List (Option ℤ × FontEntry) :=
  [(some 1, ⟨some "AAAAAA+F", some (), some 1, some "woff"⟩)]

/-- The consumption trace for `wfontPages`/`wttfs`. -/
def wconsumed : List ((ℤ × String) × Option ℤ) := [((1, "AAAAAA+F"), some 1)]

/-- A two-font document whose second `.ttf` file fails woff conversion. -/
def cexPages : List (List (ℤ × String)) := [[(1, "AAAAAA+F"), (2, "BBBBBB+G")]]

/-- The two produced `.ttf` files for `cexPages`: the second one's
conversion raises. -/
def cexTtfs : List TtfFile := [⟨"AAAAAA+F", true⟩, ⟨"BBBBBB+G", false⟩]

/-- A conversion job whose document opens but whose font-decomposition
tool exits non-zero. -/
def failInput : DocInput :=
  { openOk := true, toolOk := false, fontPages := [], ttfs := [], otfs := [],
    pages := [], cosd := fun _ => 0, measure := fun _ _ _ => none }

/-- The resolution-loop invariant relating a `FontState` to the original
document font table: remaining and result dict keys are duplicate-free,
every table xref is still unconsumed or already bound in `fonts`, each
consumed entry was consumed at most once and was bound exactly to its own
xref, and consumed entries never reappear in the remaining pool. -/
structure FontInv (table : List (ℤ × String)) (st : FontState) : Prop where
  dataNodup : (st.data.map Prod.fst).Nodup
  fontsNodup : (st.fonts.map Prod.fst).Nodup
  cover : ∀ x ∈ table.map Prod.fst, x ∈ st.data.map Prod.fst ∨ some x ∈ st.fonts.map Prod.fst
  consNodup : (st.consumed.map (fun c => c.1.1)).Nodup
  consFresh : ∀ c ∈ st.consumed, c.1.1 ∉ st.data.map Prod.fst
  consBind : ∀ c ∈ st.consumed, c.2 = some c.1.1

end PdfToHtml

namespace PdfToHtml

/-- Helper bound: the truncated degree value of `atan2` lies in `[-180, 180]`. -/
theorem lineDegrees_bounds (v : ℝ × ℝ) :
    -180 ≤ lineDegrees v ∧ lineDegrees v ≤ 180 := by
  have hπ : (0 : ℝ) < Real.pi := Real.pi_pos
  have harg1 : atan2 v.1 v.2 ≤ Real.pi := Complex.arg_le_pi _
  have harg2 : -Real.pi < atan2 v.1 v.2 := Complex.neg_pi_lt_arg _
  have hscale : (0 : ℝ) < 180 / Real.pi := by positivity
  have ht1 : atan2 v.1 v.2 * (180 / Real.pi) ≤ 180 := by
    have := mul_le_mul_of_nonneg_right harg1 (le_of_lt hscale)
    have hpi : Real.pi * (180 / Real.pi) = 180 := by field_simp
    linarith
  have ht2 : (-180 : ℝ) < atan2 v.1 v.2 * (180 / Real.pi) := by
    have := mul_lt_mul_of_pos_right harg2 hscale
    have hpi : -Real.pi * (180 / Real.pi) = -180 := by
      field_simp
      ring
    linarith
  unfold lineDegrees trunc
  set t := atan2 v.1 v.2 * (180 / Real.pi) with hts
  split
  · rename_i h0
    constructor
    · have : (0 : ℤ) ≤ ⌊t⌋ := Int.floor_nonneg.2 h0
      omega
    · have h1 : (⌊t⌋ : ℝ) ≤ t := Int.floor_le t
      have : (⌊t⌋ : ℝ) ≤ 180 := le_trans h1 ht1
      exact_mod_cast this
  · rename_i h0
    push_neg at h0
    constructor
    · have h1 : t ≤ (⌈t⌉ : ℝ) := Int.le_ceil t
      have : (-180 : ℝ) < (⌈t⌉ : ℝ) := lt_of_lt_of_le ht2 h1
      have : (-180 : ℤ) < ⌈t⌉ := by exact_mod_cast this
      omega
    · have : ⌈t⌉ ≤ ⌈(0 : ℝ)⌉ := Int.ceil_le_ceil (le_of_lt h0)
      simp at this
      omega

/-- Rounding preserves nonnegativity. -/
theorem round2_nonneg {q : ℚ} (h : 0 ≤ q) : 0 ≤ round2 q := by
  have h1 : (0 : ℤ) ≤ round (q * 100) := by
    rw [round_eq]
    apply Int.floor_nonneg.2
    positivity
  unfold round2
  positivity

/-- Every run emitted by the span loop is the `runOf` image of a
nonempty-text span of the loop's input. -/
theorem processSpans_mem {pageFonts : List (ℤ × String)} {cosd : ℤ → ℚ}
    {measure : MeasureFn} {scale : ℚ} {deg : ℤ} {spans : List Span}
    {cur cur' : Option ℤ} {runs : List TextRun}
    (h : processSpans pageFonts cosd measure scale deg spans cur = .ok (cur', runs)) :
    ∀ r ∈ runs, ∃ s ∈ spans, s.text ≠ "" ∧
      ∃ x, r = runOf cosd measure scale deg x s := by
  induction spans generalizing cur cur' runs with
  | nil =>
    simp only [processSpans] at h
    cases h
    intro r hr
    simp at hr
  | cons s rest ih =>
    intro r hr
    simp only [processSpans] at h
    split at h
    · obtain ⟨s', hs', hne, x, hx⟩ := ih h r hr
      exact ⟨s', List.mem_cons_of_mem _ hs', hne, x, hx⟩
    · rename_i hne
      cases hxr : resolveXref pageFonts cur s.font with
      | none => rw [hxr] at h; cases h
      | some x =>
        rw [hxr] at h
        cases hrec : processSpans pageFonts cosd measure scale deg rest (some x) with
        | error e => rw [hrec] at h; cases h
        | ok p =>
          obtain ⟨curr, runsr⟩ := p
          rw [hrec] at h
          cases h
          rcases List.mem_cons.1 hr with h1 | h1
          · exact ⟨s, List.mem_cons_self _ _, hne, x, h1⟩
          · obtain ⟨s', hs', hne', x', hx'⟩ := ih hrec r h1
            exact ⟨s', List.mem_cons_of_mem _ hs', hne', x', hx'⟩

/-- Every run emitted by the line loop comes from a nonempty-text span of
one of its lines, at that line's normalized rotation. -/
theorem processLines_mem {pageFonts : List (ℤ × String)} {cosd : ℤ → ℚ}
    {measure : MeasureFn} {scale : ℚ} {lines : List Line}
    {cur cur' : Option ℤ} {runs : List TextRun}
    (h : processLines pageFonts cosd measure scale lines cur = .ok (cur', runs)) :
    ∀ r ∈ runs, ∃ l ∈ lines, ∃ s ∈ l.spans, s.text ≠ "" ∧
      ∃ x, r = runOf cosd measure scale (htmlDegrees l.dirDeg) x s := by
  induction lines generalizing cur cur' runs with
  | nil =>
    simp only [processLines] at h
    cases h
    intro r hr
    simp at hr
  | cons l rest ih =>
    intro r hr
    simp only [processLines] at h
    cases h1 : processSpans pageFonts cosd measure scale (htmlDegrees l.dirDeg) l.spans cur with
    | error e => rw [h1] at h; cases h
    | ok p =>
      obtain ⟨cur1, runs1⟩ := p
      rw [h1] at h
      dsimp only at h
      cases h2 : processLines pageFonts cosd measure scale rest cur1 with
      | error e => rw [h2] at h; cases h
      | ok q =>
        obtain ⟨cur2, runs2⟩ := q
        rw [h2] at h
        cases h
        rcases List.mem_append.1 hr with hm | hm
        · obtain ⟨s, hs, hne, x, hx⟩ := processSpans_mem h1 r hm
          exact ⟨l, List.mem_cons_self _ _, s, hs, hne, x, hx⟩
        · obtain ⟨l', hl', s, hs, hne, x, hx⟩ := ih h2 r hm
          exact ⟨l', List.mem_cons_of_mem _ hl', s, hs, hne, x, hx⟩

/-- Every run emitted by the block loop comes from a nonempty-text span of
a line of a text block. -/
theorem processBlocks_mem {pageFonts : List (ℤ × String)} {cosd : ℤ → ℚ}
    {measure : MeasureFn} {scale : ℚ} {blocks : List Block}
    {cur cur' : Option ℤ} {runs : List TextRun}
    (h : processBlocks pageFonts cosd measure scale blocks cur = .ok (cur', runs)) :
    ∀ r ∈ runs, ∃ lines, Block.text lines ∈ blocks ∧ ∃ l ∈ lines, ∃ s ∈ l.spans,
      s.text ≠ "" ∧ ∃ x, r = runOf cosd measure scale (htmlDegrees l.dirDeg) x s := by
  induction blocks generalizing cur cur' runs with
  | nil =>
    simp only [processBlocks] at h
    cases h
    intro r hr
    simp at hr
  | cons b rest ih =>
    intro r hr
    cases b with
    | image =>
      simp only [processBlocks] at h
      obtain ⟨lines, hb, rest'⟩ := ih h r hr
      exact ⟨lines, List.mem_cons_of_mem _ hb, rest'⟩
    | text lines =>
      simp only [processBlocks] at h
      cases h1 : processLines pageFonts cosd measure scale lines cur with
      | error e => rw [h1] at h; cases h
      | ok p =>
        obtain ⟨cur1, runs1⟩ := p
        rw [h1] at h
        dsimp only at h
        cases h2 : processBlocks pageFonts cosd measure scale rest cur1 with
        | error e => rw [h2] at h; cases h
        | ok q =>
          obtain ⟨cur2, runs2⟩ := q
          rw [h2] at h
          cases h
          rcases List.mem_append.1 hr with hm | hm
          · obtain ⟨l, hl, s, hs, hne, x, hx⟩ := processLines_mem h1 r hm
            exact ⟨lines, List.mem_cons_self _ _, l, hl, s, hs, hne, x, hx⟩
          · obtain ⟨lines', hb, rest'⟩ := ih h2 r hm
            exact ⟨lines', List.mem_cons_of_mem _ hb, rest'⟩

/-- Every run emitted by `extract_text_blocks` is the per-span computation
`runOf` of some nonempty-text span of the page. -/
theorem extract_text_blocks_mem {page : PageData} {cosd : ℤ → ℚ}
    {measure : MeasureFn} {scale : ℚ} {runs : List TextRun}
    (h : extract_text_blocks page cosd measure scale = .ok runs) :
    ∀ r ∈ runs, ∃ s ∈ pageSpans page, s.text ≠ "" ∧
      ∃ deg x, r = runOf cosd measure scale deg x s := by
  intro r hr
  simp only [extract_text_blocks] at h
  cases h1 : processBlocks page.fonts cosd measure scale page.blocks none with
  | error e => rw [h1] at h; cases h
  | ok p =>
    obtain ⟨cur1, runs1⟩ := p
    rw [h1] at h
    cases h
    obtain ⟨lines, hb, l, hl, s, hs, hne, x, hx⟩ := processBlocks_mem h1 r hr
    refine ⟨s, ?_, hne, htmlDegrees l.dirDeg, x, hx⟩
    simp only [pageSpans, List.mem_flatten, List.mem_map]
    refine ⟨blockSpans (Block.text lines), ⟨Block.text lines, hb, rfl⟩, ?_⟩
    simp only [blockSpans, List.mem_flatten, List.mem_map]
    exact ⟨l.spans, ⟨l, hl, rfl⟩, hs⟩

/-- C2: for every emitted text run, when the absolute difference between the
geometry-derived display width and the measured width is at most `1.0` the
emitted `letter_spacing` is exactly `0`, and when it exceeds `1.0` the
emitted `letter_spacing` is `round((width - calculated_width) / len(text), 2)`
(src/pdf_to_html.py lines 190-194). -/
theorem letter_spacing_formula (page : PageData) (cosd : ℤ → ℚ) (measure : MeasureFn)
    (scale : ℚ) (runs : List TextRun)
    (h : extract_text_blocks page cosd measure scale = .ok runs)
    (r : TextRun) (hr : r ∈ runs) :
    (|r.width - r.calculated_width| ≤ 1 → r.letter_spacing = 0) ∧
    (1 < |r.width - r.calculated_width| →
      r.letter_spacing = round2 ((r.width - r.calculated_width) / (r.text.length : ℚ))) := by
  obtain ⟨s, _, hne, deg, x, rfl⟩ := extract_text_blocks_mem h r hr
  simp only [runOf]
  split
  · rename_i hlt
    constructor
    · intro hle
      exact absurd hlt (not_lt.2 hle)
    · intro _
      rfl
  · rename_i hnlt
    constructor
    · intro _
      rfl
    · intro hlt
      exact absurd hlt hnlt

/-- C10: for every emitted text run whose width measurement raised, the
fallback sets the measured width equal to the geometry-derived width, so the
discrepancy is `0` and the emitted `letter_spacing` is exactly `0`
(src/pdf_to_html.py lines 184-194). -/
theorem measurement_failure_zero_spacing (page : PageData) (cosd : ℤ → ℚ)
    (measure : MeasureFn) (scale : ℚ) (runs : List TextRun)
    (h : extract_text_blocks page cosd measure scale = .ok runs)
    (r : TextRun) (hr : r ∈ runs)
    (hm : measure r.font_xref r.text r.font_size = none) :
    r.letter_spacing = 0 ∧ r.calculated_width = r.width := by
  obtain ⟨s, _, hne, deg, x, rfl⟩ := extract_text_blocks_mem h r hr
  simp only [runOf] at hm ⊢
  rw [hm]
  norm_num

/-- C8: every emitted text run with non-zero rotation is positioned at the
span's glyph-origin point scaled (not the bounding-box corner), and every
unrotated run at the scaled bounding-box top-left corner
(src/pdf_to_html.py lines 172-174 and 196-198). -/
theorem rotated_run_origin (page : PageData) (cosd : ℤ → ℚ) (measure : MeasureFn)
    (scale : ℚ) (runs : List TextRun)
    (h : extract_text_blocks page cosd measure scale = .ok runs)
    (r : TextRun) (hr : r ∈ runs) :
    ∃ s ∈ pageSpans page, r.text = s.text ∧
      (r.rotation ≠ 0 →
        r.x = round2 (s.origin.1 * scale) ∧ r.y = round2 (s.origin.2 * scale)) ∧
      (r.rotation = 0 →
        r.x = round2 (s.bbox.x0 * scale) ∧ r.y = round2 (s.bbox.y0 * scale)) := by
  obtain ⟨s, hs, hne, deg, x, rfl⟩ := extract_text_blocks_mem h r hr
  refine ⟨s, hs, rfl, ?_, ?_⟩ <;> simp only [runOf] <;> intro hdeg
  · rw [if_pos hdeg, if_pos hdeg]
    exact ⟨rfl, rfl⟩
  · rw [if_neg (by simp [hdeg]), if_neg (by simp [hdeg])]
    exact ⟨rfl, rfl⟩

/-- C7: the display width of every emitted run is the scaled bounding-box
width, except that at rotation exactly 90 or 270 the scaled bounding-box
height is substituted, at any other non-zero non-180 rotation the width is
divided by the cosine of the rotation and the absolute value is taken, and
at exactly 180 no correction is applied (src/pdf_to_html.py lines 176-182;
`cosd` is the model of `math.cos(math.radians(.))`).  The bounding boxes
delivered by the engine are normalized (`y0 ≤ y1`) and the scale factor is
positive, which is what makes the `abs` at line 180 a no-op. -/
theorem display_width_rotation_cases (page : PageData) (cosd : ℤ → ℚ)
    (measure : MeasureFn) (scale : ℚ) (runs : List TextRun)
    (hscale : 0 ≤ scale)
    (hbox : ∀ s ∈ pageSpans page, s.bbox.y0 ≤ s.bbox.y1)
    (h : extract_text_blocks page cosd measure scale = .ok runs)
    (r : TextRun) (hr : r ∈ runs) :
    ∃ s ∈ pageSpans page, r.text = s.text ∧
      (r.rotation = 0 → r.width = round2 ((s.bbox.x1 - s.bbox.x0) * scale)) ∧
      (r.rotation = 90 ∨ r.rotation = 270 →
        r.width = round2 ((s.bbox.y1 - s.bbox.y0) * scale)) ∧
      (r.rotation = 180 → r.width = round2 ((s.bbox.x1 - s.bbox.x0) * scale)) ∧
      (r.rotation ≠ 0 → r.rotation ≠ 90 → r.rotation ≠ 270 → r.rotation ≠ 180 →
        r.width = |round2 ((s.bbox.x1 - s.bbox.x0) * scale) / cosd r.rotation|) := by
  obtain ⟨s, hs, hne, deg, x, rfl⟩ := extract_text_blocks_mem h r hr
  have hy : 0 ≤ round2 ((s.bbox.y1 - s.bbox.y0) * scale) :=
    round2_nonneg (mul_nonneg (sub_nonneg.2 (hbox s hs)) hscale)
  refine ⟨s, hs, rfl, ?_, ?_, ?_, ?_⟩ <;>
      simp only [runOf, displayWidth] <;> intro hdeg
  · rw [if_neg (by simp [hdeg])]
  · rcases hdeg with h90 | h270
    · rw [if_pos (by simp [h90]), if_pos (by simp [h90]), abs_of_nonneg hy]
    · rw [if_pos (by simp [h270]), if_pos (by simp [h270]), abs_of_nonneg hy]
  · rw [if_pos (by simp [hdeg]), if_neg (by simp [hdeg]), if_neg (by simp [hdeg])]
  · intro h90 h270 h180
    rw [if_pos (by simp [hdeg]), if_neg (by simp [h90, h270]), if_pos (by simp [h180])]

/-- When some page-font entry carries the span's font name, the lookup loop
always resolves an xref, whatever the previous state of `font_xref`. -/
theorem resolveXref_isSome {pageFonts : List (ℤ × String)} {cur : Option ℤ}
    {name : String} (h : ∃ f ∈ pageFonts, f.2 = name) :
    ∃ x, resolveXref pageFonts cur name = some x := by
  obtain ⟨f, hf, hname⟩ := h
  rcases hfind : pageFonts.find? (fun g => g.2 == name) with _ | g
  · rw [List.find?_eq_none] at hfind
    exact absurd (by simp [hname]) (hfind f hf)
  · exact ⟨g.1, by unfold resolveXref; rw [hfind]⟩

/-- Under the engine contract (every span's font name occurs in the page
font table), the span loop succeeds and emits exactly one run per
nonempty-text span. -/
theorem processSpans_ok {pageFonts : List (ℤ × String)} {cosd : ℤ → ℚ}
    {measure : MeasureFn} {scale : ℚ} {deg : ℤ} {spans : List Span}
    (hwf : ∀ s ∈ spans, ∃ f ∈ pageFonts, f.2 = s.font) :
    ∀ cur, ∃ cur' runs,
      processSpans pageFonts cosd measure scale deg spans cur = .ok (cur', runs) ∧
      runs.length = (spans.filter (fun s => s.text ≠ "")).length := by
  induction spans with
  | nil => exact fun cur => ⟨cur, [], rfl, rfl⟩
  | cons s rest ih =>
    intro cur
    have hwf' : ∀ s' ∈ rest, ∃ f ∈ pageFonts, f.2 = s'.font :=
      fun s' hs' => hwf s' (List.mem_cons_of_mem _ hs')
    obtain ⟨x, hx⟩ :=
      @resolveXref_isSome pageFonts cur s.font (hwf s (List.mem_cons_self _ _))
    obtain ⟨cur', runs, hrec, hlen⟩ := ih hwf' (some x)
    by_cases h0 : s.text = ""
    · refine ⟨cur', runs, ?_, ?_⟩
      · simp only [processSpans, hx, if_pos h0]
        exact hrec
      · rw [hlen, List.filter_cons]
        simp [h0]
    · refine ⟨cur', runOf cosd measure scale deg x s :: runs, ?_, ?_⟩
      · simp only [processSpans, hx, if_neg h0]
        rw [hrec]
      · rw [List.filter_cons]
        simp only [h0, List.length_cons, hlen]
        simp [h0]

/-- Under the engine contract, the line loop succeeds and emits exactly one
run per nonempty-text span of its lines. -/
theorem processLines_ok {pageFonts : List (ℤ × String)} {cosd : ℤ → ℚ}
    {measure : MeasureFn} {scale : ℚ} {lines : List Line}
    (hwf : ∀ l ∈ lines, ∀ s ∈ l.spans, ∃ f ∈ pageFonts, f.2 = s.font) :
    ∀ cur, ∃ cur' runs,
      processLines pageFonts cosd measure scale lines cur = .ok (cur', runs) ∧
      runs.length =
        ((lines.map Line.spans).flatten.filter (fun s => s.text ≠ "")).length := by
  induction lines with
  | nil => exact fun cur => ⟨cur, [], rfl, rfl⟩
  | cons l rest ih =>
    intro cur
    obtain ⟨cur1, runs1, h1, hlen1⟩ :=
      @processSpans_ok pageFonts cosd measure scale (htmlDegrees l.dirDeg) l.spans
        (fun s hs => hwf l (List.mem_cons_self _ _) s hs) cur
    obtain ⟨cur2, runs2, h2, hlen2⟩ :=
      ih (fun l' hl' => hwf l' (List.mem_cons_of_mem _ hl')) cur1
    refine ⟨cur2, runs1 ++ runs2, ?_, ?_⟩
    · simp only [processLines, h1]
      rw [h2]
    · simp [List.filter_append, hlen1, hlen2]

/-- Under the engine contract, the block loop succeeds and emits exactly
one run per nonempty-text span of its text blocks. -/
theorem processBlocks_ok {pageFonts : List (ℤ × String)} {cosd : ℤ → ℚ}
    {measure : MeasureFn} {scale : ℚ} {blocks : List Block}
    (hwf : ∀ s ∈ (blocks.map blockSpans).flatten, ∃ f ∈ pageFonts, f.2 = s.font) :
    ∀ cur, ∃ cur' runs,
      processBlocks pageFonts cosd measure scale blocks cur = .ok (cur', runs) ∧
      runs.length =
        ((blocks.map blockSpans).flatten.filter (fun s => s.text ≠ "")).length := by
  induction blocks with
  | nil => exact fun cur => ⟨cur, [], rfl, rfl⟩
  | cons b rest ih =>
    intro cur
    have hwfr : ∀ s ∈ (rest.map blockSpans).flatten, ∃ f ∈ pageFonts, f.2 = s.font := by
      intro s hs
      refine hwf s ?_
      simp only [List.map_cons, List.flatten_cons, List.mem_append]
      exact Or.inr hs
    cases b with
    | image =>
      obtain ⟨cur', runs, hrec, hlen⟩ := ih hwfr cur
      refine ⟨cur', runs, ?_, ?_⟩
      · simp only [processBlocks]
        exact hrec
      · simp only [List.map_cons, List.flatten_cons, blockSpans]
        simpa using hlen
    | text lines =>
      have hwfl : ∀ l ∈ lines, ∀ s ∈ l.spans, ∃ f ∈ pageFonts, f.2 = s.font := by
        intro l hl s hs
        refine hwf s ?_
        simp only [List.map_cons, List.flatten_cons, List.mem_append]
        refine Or.inl ?_
        simp only [blockSpans, List.mem_flatten, List.mem_map]
        exact ⟨l.spans, ⟨l, hl, rfl⟩, hs⟩
      obtain ⟨cur1, runs1, h1, hlen1⟩ :=
        @processLines_ok pageFonts cosd measure scale lines hwfl cur
      obtain ⟨cur2, runs2, h2, hlen2⟩ := ih hwfr cur1
      refine ⟨cur2, runs1 ++ runs2, ?_, ?_⟩
      · simp only [processBlocks, h1]
        rw [h2]
      · simp only [List.map_cons, List.flatten_cons, List.filter_append,
          List.length_append, hlen1, hlen2, blockSpans]

/-- C3: under the PDF-engine contract that every span's font name occurs in
the page's font table, `extract_text_blocks` never throws: it returns one
run per nonempty-text span (no run is dropped, no per-run failure aborts
the page), and a run whose width measurement raised is still emitted, with
the measured width falling back to the geometry-derived provisional width
(src/pdf_to_html.py lines 159-198). -/
theorem extractor_never_throws_per_run (page : PageData) (cosd : ℤ → ℚ)
    (measure : MeasureFn) (scale : ℚ)
    (hwf : ∀ s ∈ pageSpans page, ∃ f ∈ page.fonts, f.2 = s.font) :
    ∃ runs, extract_text_blocks page cosd measure scale = .ok runs ∧
      runs.length = ((pageSpans page).filter (fun s => s.text ≠ "")).length ∧
      ∀ r ∈ runs, measure r.font_xref r.text r.font_size = none →
        r.calculated_width = r.width := by
  obtain ⟨cur', runs, hok, hlen⟩ :=
    @processBlocks_ok page.fonts cosd measure scale page.blocks
      (fun s hs => hwf s hs) none
  have hex : extract_text_blocks page cosd measure scale = .ok runs := by
    simp only [extract_text_blocks, hok]
  refine ⟨runs, hex, hlen, ?_⟩
  intro r hr hm
  obtain ⟨s, _, hne, deg, x, rfl⟩ := extract_text_blocks_mem hex r hr
  simp only [runOf] at hm ⊢
  rw [hm]
  rfl

/-- Key membership after a dict insert. -/
theorem mem_keys_dinsert {α β : Type} [DecidableEq α] {k x : α} {v : β}
    {l : List (α × β)} :
    x ∈ (dinsert k v l).map Prod.fst ↔ x = k ∨ x ∈ l.map Prod.fst := by
  induction l with
  | nil => simp [dinsert]
  | cons p rest ih =>
    obtain ⟨k', v'⟩ := p
    simp only [dinsert]
    split
    · rename_i hk
      subst hk
      simp
    · rename_i hk
      simp only [List.map_cons, List.mem_cons, ih]
      tauto

/-- A dict insert preserves duplicate-freeness of the keys. -/
theorem keys_dinsert_nodup {α β : Type} [DecidableEq α] {k : α} {v : β}
    {l : List (α × β)} (h : (l.map Prod.fst).Nodup) :
    ((dinsert k v l).map Prod.fst).Nodup := by
  induction l with
  | nil => simp [dinsert]
  | cons p rest ih =>
    obtain ⟨k', v'⟩ := p
    simp only [List.map_cons, List.nodup_cons] at h
    simp only [dinsert]
    split
    · rename_i hk
      subst hk
      simp only [List.map_cons, List.nodup_cons]
      exact h
    · rename_i hk
      simp only [List.map_cons, List.nodup_cons]
      refine ⟨?_, ih h.2⟩
      intro hmem
      rw [mem_keys_dinsert] at hmem
      rcases hmem with h1 | h1
      · exact hk h1.symm
      · exact h.1 h1

/-- Structure of a successful `popFirst`: the popped element was in the
list, every list element either survives or is the popped one, and the
remainder is contained in the original list. -/
theorem popFirst_some {α : Type} {p : α → Bool} {l l' : List α} {a : α}
    (h : popFirst p l = some (a, l')) :
    a ∈ l ∧ (∀ q ∈ l, q ∈ l' ∨ q = a) ∧ (∀ q ∈ l', q ∈ l) := by
  induction l generalizing l' with
  | nil => simp [popFirst] at h
  | cons b rest ih =>
    simp only [popFirst] at h
    split at h
    · cases h
      refine ⟨List.mem_cons_self _ _, ?_, ?_⟩
      · intro q hq
        rcases List.mem_cons.1 hq with h1 | h1
        · exact Or.inr h1
        · exact Or.inl h1
      · exact fun q hq => List.mem_cons_of_mem _ hq
    · cases hrec : popFirst p rest with
      | none => rw [hrec] at h; cases h
      | some r =>
        obtain ⟨a', rest'⟩ := r
        rw [hrec] at h
        cases h
        obtain ⟨hmem, hsplit, hsub⟩ := ih hrec
        refine ⟨List.mem_cons_of_mem _ hmem, ?_, ?_⟩
        · intro q hq
          rcases List.mem_cons.1 hq with h1 | h1
          · exact Or.inl (h1 ▸ List.mem_cons_self _ _)
          · rcases hsplit q h1 with h2 | h2
            · exact Or.inl (List.mem_cons_of_mem _ h2)
            · exact Or.inr h2
        · intro q hq
          rcases List.mem_cons.1 hq with h1 | h1
          · exact h1 ▸ List.mem_cons_self _ _
          · exact List.mem_cons_of_mem _ (hsub q h1)

/-- When the original keys are duplicate-free, the keys after a `popFirst`
are still duplicate-free and no longer contain the popped key. -/
theorem popFirst_keys_nodup {α β : Type} {p : α × β → Bool} {l l' : List (α × β)}
    {a : α × β} (hnd : (l.map Prod.fst).Nodup) (h : popFirst p l = some (a, l')) :
    (l'.map Prod.fst).Nodup ∧ a.1 ∉ l'.map Prod.fst := by
  induction l generalizing l' with
  | nil => simp [popFirst] at h
  | cons b rest ih =>
    simp only [List.map_cons, List.nodup_cons] at hnd
    simp only [popFirst] at h
    split at h
    · cases h
      exact ⟨hnd.2, hnd.1⟩
    · cases hrec : popFirst p rest with
      | none => rw [hrec] at h; cases h
      | some r =>
        obtain ⟨a', rest'⟩ := r
        rw [hrec] at h
        cases h
        obtain ⟨hnd', hnotin⟩ := ih hnd.2 hrec
        obtain ⟨hmem, _, hsub⟩ := popFirst_some hrec
        refine ⟨?_, ?_⟩
        · simp only [List.map_cons, List.nodup_cons]
          refine ⟨?_, hnd'⟩
          intro hbk
          obtain ⟨q, hq, hqk⟩ := List.mem_map.1 hbk
          exact hnd.1 (List.mem_map.2 ⟨q, hsub q hq, hqk⟩)
        · simp only [List.map_cons, List.mem_cons]
          rintro (h1 | h1)
          · exact hnd.1 (h1 ▸ List.mem_map.2 ⟨a', hmem, rfl⟩)
          · exact hnotin h1

/-- A `foldlM` over `Except` preserves any invariant preserved by each
successful step. -/
theorem foldlM_except_inv {σ α ε : Type} {step : σ → α → Except ε σ} {P : σ → Prop} :
    ∀ {l : List α} {s0 s1 : σ},
      (∀ s a s', a ∈ l → P s → step s a = .ok s' → P s') →
      P s0 → l.foldlM step s0 = .ok s1 → P s1 := by
  intro l
  induction l with
  | nil =>
    intro s0 s1 _ h0 hfold
    simp only [List.foldlM_nil] at hfold
    cases hfold
    exact h0
  | cons a rest ih =>
    intro s0 s1 hstep h0 hfold
    simp only [List.foldlM_cons] at hfold
    cases hs : step s0 a with
    | error e => rw [hs] at hfold; cases hfold
    | ok s' =>
      rw [hs] at hfold
      exact ih (fun s b s'' hb => hstep s b s'' (List.mem_cons_of_mem _ hb))
        (hstep s0 a s' (List.mem_cons_self _ _) h0 hs) hfold

/-- A `foldlM` over `Except` fails whenever the list contains an element on
which the step fails from every state. -/
theorem foldlM_except_mem_fail {σ α ε : Type} {step : σ → α → Except ε σ} {a : α} :
    ∀ {l : List α}, a ∈ l → (∀ s, ∃ e, step s a = .error e) →
      ∀ s0, ∃ e, l.foldlM step s0 = .error e := by
  intro l
  induction l with
  | nil => intro h; cases h
  | cons b rest ih =>
    intro hmem hfail s0
    rcases List.mem_cons.1 hmem with h1 | h1
    · subst h1
      obtain ⟨e, he⟩ := hfail s0
      refine ⟨e, ?_⟩
      simp only [List.foldlM_cons, he]
      rfl
    · cases hs : step s0 b with
      | error e =>
        refine ⟨e, ?_⟩
        simp only [List.foldlM_cons, hs]
        rfl
      | ok s' =>
        obtain ⟨e, he⟩ := ih h1 hfail s'
        refine ⟨e, ?_⟩
        simp only [List.foldlM_cons, hs]
        exact he

/-- The state reached after consuming entry `e` (first match of the pool)
and inserting a result entry under key `some e.1` keeps the invariant. -/
theorem consume_inv {table : List (ℤ × String)} {st : FontState}
    {e : ℤ × String} {rest : List (ℤ × String)} {p : ℤ × String → Bool}
    {v : FontEntry} {b : FontBuf} {fx' : Option (Option ℤ)}
    (hinv : FontInv table st) (hpop : popFirst p st.data = some (e, rest)) :
    FontInv table
      { data := rest
        buffers := dinsert (some e.1) b st.buffers
        fonts := dinsert (some e.1) v st.fonts
        fx := fx'
        consumed := st.consumed ++ [(e, some e.1)] } := by
  obtain ⟨hmem, hsplit, hsub⟩ := popFirst_some hpop
  obtain ⟨hnd', hnotin⟩ := popFirst_keys_nodup hinv.dataNodup hpop
  constructor
  · exact hnd'
  · exact keys_dinsert_nodup hinv.fontsNodup
  · intro x hx
    rcases hinv.cover x hx with h1 | h1
    · obtain ⟨q, hq, hqk⟩ := List.mem_map.1 h1
      rcases hsplit q hq with h2 | h2
      · exact Or.inl (List.mem_map.2 ⟨q, h2, hqk⟩)
      · subst h2
        refine Or.inr ?_
        rw [mem_keys_dinsert]
        exact Or.inl (by rw [← hqk])
    · refine Or.inr ?_
      rw [mem_keys_dinsert]
      exact Or.inr h1
  · rw [List.map_append, List.nodup_append]
    refine ⟨hinv.consNodup, by simp, ?_⟩
    intro k hk hk2
    simp only [List.map_cons, List.map_nil, List.mem_singleton] at hk2
    obtain ⟨c, hc, hck⟩ := List.mem_map.1 hk
    refine hinv.consFresh c hc ?_
    rw [hck, hk2]
    exact List.mem_map.2 ⟨e, hmem, rfl⟩
  · intro c hc
    rcases List.mem_append.1 hc with h1 | h1
    · intro hin
      obtain ⟨q, hq, hqk⟩ := List.mem_map.1 hin
      exact hinv.consFresh c h1 (List.mem_map.2 ⟨q, hsub q hq, hqk⟩)
    · simp only [List.mem_singleton] at h1
      subst h1
      exact hnotin
  · intro c hc
    rcases List.mem_append.1 hc with h1 | h1
    · exact hinv.consBind c h1
    · simp only [List.mem_singleton] at h1
      subst h1
      rfl

/-- The state reached with no pool entry consumed, inserting a result
entry under an arbitrary key, keeps the invariant. -/
theorem stale_inv {table : List (ℤ × String)} {st : FontState}
    {k : Option ℤ} {v : FontEntry} {b : FontBuf} {fx' : Option (Option ℤ)}
    (hinv : FontInv table st) :
    FontInv table
      { data := st.data
        buffers := dinsert k b st.buffers
        fonts := dinsert k v st.fonts
        fx := fx'
        consumed := st.consumed } := by
  constructor
  · exact hinv.dataNodup
  · exact keys_dinsert_nodup hinv.fontsNodup
  · intro x hx
    rcases hinv.cover x hx with h1 | h1
    · exact Or.inl h1
    · refine Or.inr ?_
      rw [mem_keys_dinsert]
      exact Or.inr h1
  · exact hinv.consNodup
  · exact hinv.consFresh
  · exact hinv.consBind

/-- `ttfBind` preserves the invariant. -/
theorem ttfBind_inv {table : List (ℤ × String)} {st st' : FontState} {fam : String}
    {convOk : Bool} (hinv : FontInv table st) (h : ttfBind st fam convOk = .ok st') :
    FontInv table st' := by
  unfold ttfBind at h
  cases hpop : popFirst (fun p => p.2 == fam) st.data with
  | some r =>
    obtain ⟨e, rest⟩ := r
    rw [hpop] at h
    cases convOk with
    | false => simp at h
    | true =>
      simp only [if_pos] at h
      cases h
      exact consume_inv hinv hpop
  | none =>
    rw [hpop] at h
    cases convOk with
    | false => simp at h
    | true =>
      simp only [if_pos] at h
      cases h
      exact stale_inv hinv

/-- `ttfStep` preserves the invariant. -/
theorem ttfStep_inv {table : List (ℤ × String)} {st st' : FontState} {f : TtfFile}
    (hinv : FontInv table st) (h : ttfStep st f = .ok st') : FontInv table st' := by
  unfold ttfStep at h
  split at h
  · exact ttfBind_inv hinv h
  · cases hd : st.data.head? with
    | some e => rw [hd] at h; exact ttfBind_inv hinv h
    | none => rw [hd] at h; cases h

/-- `otfStep` preserves the invariant. -/
theorem otfStep_inv {table : List (ℤ × String)} {st st' : FontState} {f : OtfFile}
    (hinv : FontInv table st) (h : otfStep st f = .ok st') : FontInv table st' := by
  unfold otfStep at h
  cases hpop : popFirst (fun p => hasPlus p.2) st.data with
  | some r =>
    obtain ⟨e, rest⟩ := r
    rw [hpop] at h
    cases hcv : f.convOk with
    | false => rw [hcv] at h; simp at h
    | true =>
      rw [hcv] at h
      simp only [if_pos] at h
      cases h
      exact consume_inv hinv hpop
  | none =>
    rw [hpop] at h
    cases hfx : st.fx with
    | none => rw [hfx] at h; cases h
    | some xref? =>
      rw [hfx] at h
      cases hcv : f.convOk with
      | false => rw [hcv] at h; simp at h
      | true =>
        rw [hcv] at h
        simp only [if_pos] at h
        cases h
        exact stale_inv hinv

/-- The non-embedded trailer loop never touches the consumption trace. -/
theorem sysFold_consumed (elems : List (ℤ × String)) :
    ∀ st : FontState, (elems.foldl sysEntry st).consumed = st.consumed := by
  induction elems with
  | nil => intro st; rfl
  | cons e rest ih => intro st; rw [List.foldl_cons, ih]; rfl

/-- Keys present in `fonts` survive the non-embedded trailer loop. -/
theorem sysFold_keys_mono (elems : List (ℤ × String)) :
    ∀ (st : FontState) (x : Option ℤ), x ∈ st.fonts.map Prod.fst →
      x ∈ (elems.foldl sysEntry st).fonts.map Prod.fst := by
  induction elems with
  | nil => intro st x hx; exact hx
  | cons e rest ih =>
    intro st x hx
    rw [List.foldl_cons]
    refine ih _ x ?_
    simp only [sysEntry]
    rw [mem_keys_dinsert]
    exact Or.inr hx

/-- Every entry fed to the non-embedded trailer loop ends up as a key of
`fonts`. -/
theorem sysFold_keys_elems (elems : List (ℤ × String)) :
    ∀ (st : FontState) (e : ℤ × String), e ∈ elems →
      some e.1 ∈ (elems.foldl sysEntry st).fonts.map Prod.fst := by
  induction elems with
  | nil => intro st e he; cases he
  | cons b rest ih =>
    intro st e he
    rw [List.foldl_cons]
    rcases List.mem_cons.1 he with h1 | h1
    · subst h1
      refine sysFold_keys_mono rest _ _ ?_
      simp only [sysEntry]
      rw [mem_keys_dinsert]
      exact Or.inl rfl
    · exact ih _ e h1

/-- The non-embedded trailer loop preserves duplicate-free `fonts` keys. -/
theorem sysFold_nodup (elems : List (ℤ × String)) :
    ∀ st : FontState, (st.fonts.map Prod.fst).Nodup →
      ((elems.foldl sysEntry st).fonts.map Prod.fst).Nodup := by
  induction elems with
  | nil => intro st h; exact h
  | cons e rest ih =>
    intro st h
    rw [List.foldl_cons]
    exact ih _ (keys_dinsert_nodup h)

/-- One font-table insertion preserves duplicate-free keys. -/
theorem tableInsert_keys_nodup {acc : List (ℤ × String)} {f : ℤ × String}
    (h : (acc.map Prod.fst).Nodup) : ((tableInsert acc f).map Prod.fst).Nodup := by
  unfold tableInsert
  split
  · exact h
  · rename_i hany
    rw [List.map_append, List.nodup_append]
    refine ⟨h, by simp, ?_⟩
    intro k hk hk2
    simp only [List.map_cons, List.map_nil, List.mem_singleton] at hk2
    obtain ⟨q, hq, hqk⟩ := List.mem_map.1 hk
    refine hany (List.any_eq_true.2 ⟨q, hq, ?_⟩)
    simp [hqk, hk2]

/-- One page's font-table fold preserves duplicate-free keys. -/
theorem foldl_tableInsert_nodup (fs : List (ℤ × String)) :
    ∀ acc, (acc.map Prod.fst).Nodup →
      ((fs.foldl tableInsert acc).map Prod.fst).Nodup := by
  induction fs with
  | nil => intro acc h; exact h
  | cons f rest ih =>
    intro acc h
    rw [List.foldl_cons]
    exact ih _ (tableInsert_keys_nodup h)

/-- The document font table never records the same xref twice
(`if xref not in data` guard, line 43). -/
theorem buildFontTable_keys_nodup (pages : List (List (ℤ × String))) :
    ((buildFontTable pages).map Prod.fst).Nodup := by
  unfold buildFontTable
  suffices h : ∀ (pgs : List (List (ℤ × String))) (acc : List (ℤ × String)),
      (acc.map Prod.fst).Nodup →
      ((pgs.foldl (fun acc pg => pg.foldl tableInsert acc) acc).map Prod.fst).Nodup by
    exact h pages [] (by simp)
  intro pgs
  induction pgs with
  | nil => intro acc h; exact h
  | cons pg rest ih =>
    intro acc h
    rw [List.foldl_cons]
    exact ih _ (foldl_tableInsert_nodup pg acc h)

/-- C1: on every successful font resolution, each xref of the document font
table is a key of exactly one entry of the returned `fonts` dict (total
coverage with duplicate-free keys), and no two distinct xrefs are bound to
the same consumed font-table entry: each table entry is consumed at most
once, and a consumed entry is bound exactly to its own xref
(src/pdf_to_html.py lines 33-115). -/
theorem font_resolution_total_coverage (toolOk : Bool)
    (pages : List (List (ℤ × String))) (ttfs : List TtfFile) (otfs : List OtfFile)
    (fonts : List (Option ℤ × FontEntry)) (consumed : List ((ℤ × String) × Option ℤ))
    (h : extract_fonts_from_pdf toolOk pages ttfs otfs = .ok (fonts, consumed)) :
    ((fonts.map Prod.fst).Nodup ∧
      ∀ x ∈ (buildFontTable pages).map Prod.fst, some x ∈ fonts.map Prod.fst) ∧
    (consumed.map (fun c => c.1.1)).Nodup ∧
    ∀ c ∈ consumed, c.2 = some c.1.1 := by
  unfold extract_fonts_from_pdf at h
  split at h
  · cases h
  · cases h1 : ttfs.foldlM ttfStep ⟨buildFontTable pages, [], [], none, []⟩ with
    | error e => rw [h1] at h; cases h
    | ok st1 =>
      rw [h1] at h
      dsimp only at h
      cases h2 : otfs.foldlM otfStep st1 with
      | error e => rw [h2] at h; cases h
      | ok st2 =>
        rw [h2] at h
        cases h
        have hinv0 : FontInv (buildFontTable pages)
            ⟨buildFontTable pages, [], [], none, []⟩ := by
          constructor
          · exact buildFontTable_keys_nodup pages
          · simp
          · intro x hx; exact Or.inl hx
          · simp
          · simp
          · simp
        have hinv1 : FontInv (buildFontTable pages) st1 :=
          foldlM_except_inv (fun s a s' _ hP hs => ttfStep_inv hP hs) hinv0 h1
        have hinv2 : FontInv (buildFontTable pages) st2 :=
          foldlM_except_inv (fun s a s' _ hP hs => otfStep_inv hP hs) hinv1 h2
        refine ⟨⟨?_, ?_⟩, ?_, ?_⟩
        · exact sysFold_nodup _ _ hinv2.fontsNodup
        · intro x hx
          rcases hinv2.cover x hx with hdata | hfonts
          · obtain ⟨q, hq, hqk⟩ := List.mem_map.1 hdata
            have hq1 := sysFold_keys_elems st2.data st2 q hq
            rw [hqk] at hq1
            exact hq1
          · exact sysFold_keys_mono _ _ _ hfonts
        · simp only [sysStep, sysFold_consumed]
          exact hinv2.consNodup
        · intro c hc
          simp only [sysStep, sysFold_consumed] at hc
          exact hinv2.consBind c hc

/-- With a failing conversion, `ttfBind` always raises. -/
theorem ttfBind_fail (st : FontState) (fam : String) :
    ttfBind st fam false = .error FontErr.convFail := by
  unfold ttfBind
  cases popFirst (fun p => p.2 == fam) st.data with
  | some r => obtain ⟨e, rest⟩ := r; simp
  | none => simp

/-- A `.ttf` file whose conversion fails makes its loop iteration raise,
from every state. -/
theorem ttfStep_fail (st : FontState) (f : TtfFile) (h : f.convOk = false) :
    ∃ e, ttfStep st f = .error e := by
  unfold ttfStep
  split
  · exact ⟨FontErr.convFail, by rw [h, ttfBind_fail]⟩
  · cases st.data.head? with
    | some e =>
      refine ⟨FontErr.convFail, ?_⟩
      dsimp only
      rw [h, ttfBind_fail]
    | none => exact ⟨FontErr.indexErr, rfl⟩

/-- An `.otf` file whose conversion fails makes its loop iteration raise,
from every state. -/
theorem otfStep_fail (st : FontState) (f : OtfFile) (h : f.convOk = false) :
    ∃ e, otfStep st f = .error e := by
  unfold otfStep
  cases popFirst (fun p => hasPlus p.2) st.data with
  | some r =>
    obtain ⟨e, rest⟩ := r
    exact ⟨FontErr.convFail, by rw [h]; simp⟩
  | none =>
    cases st.fx with
    | none => exact ⟨FontErr.nameErr, rfl⟩
    | some xref? => exact ⟨FontErr.convFail, by rw [h]; simp⟩

/-- C4 (amended): when the woff container conversion fails for any produced
font file, the whole font resolution raises — no `fonts` map is returned
at all, so no other entry is produced either (there is no `try/except`
around `font.save` at src/pdf_to_html.py lines 65-67 and 92-94). -/
theorem conversion_failure_aborts_resolution (toolOk : Bool)
    (pages : List (List (ℤ × String))) (ttfs : List TtfFile) (otfs : List OtfFile)
    (hbad : (∃ f ∈ ttfs, f.convOk = false) ∨ ∃ f ∈ otfs, f.convOk = false) :
    ∃ e, extract_fonts_from_pdf toolOk pages ttfs otfs = .error e := by
  unfold extract_fonts_from_pdf
  split
  · exact ⟨FontErr.toolFail, rfl⟩
  · rcases hbad with ⟨f, hf, hc⟩ | ⟨f, hf, hc⟩
    · obtain ⟨e, he⟩ :=
        foldlM_except_mem_fail hf (fun s => ttfStep_fail s f hc)
          ⟨buildFontTable pages, [], [], none, []⟩
      rw [he]
      exact ⟨e, rfl⟩
    · cases h1 : ttfs.foldlM ttfStep ⟨buildFontTable pages, [], [], none, []⟩ with
      | error e => exact ⟨e, rfl⟩
      | ok st1 =>
        dsimp only
        obtain ⟨e, he⟩ := foldlM_except_mem_fail hf (fun s => otfStep_fail s f hc) st1
        rw [he]
        exact ⟨e, rfl⟩

/-- C9: whenever `pdf_to_html` fails (document open failure, decomposition
tool failure, any font-resolution or page-processing failure), no output
file is written; and the output file is written only when the whole run
succeeded, in particular only after every page was processed successfully
(src/pdf_to_html.py lines 323-371: the write at lines 365-366 follows the
full page loop). -/
theorem no_output_on_failure (inp : DocInput) (scale : ℚ) :
    (∀ e, (pdf_to_html inp scale).1 = .error e →
      (pdf_to_html inp scale).2.written = false) ∧
    ((pdf_to_html inp scale).2.written = true →
      (pdf_to_html inp scale).1 = .ok () ∧
      ∃ pagesData,
        inp.pages.mapM (fun pg => extract_text_blocks pg inp.cosd inp.measure scale) =
          .ok pagesData) := by
  unfold pdf_to_html
  split
  · exact ⟨fun e _ => rfl, fun hw => by cases hw⟩
  · cases hf : extract_fonts_from_pdf inp.toolOk inp.fontPages inp.ttfs inp.otfs with
    | error e => exact ⟨fun e _ => rfl, fun hw => by cases hw⟩
    | ok fonts =>
      cases hp : inp.pages.mapM
          (fun pg => extract_text_blocks pg inp.cosd inp.measure scale) with
      | error e => exact ⟨fun e _ => rfl, fun hw => by cases hw⟩
      | ok pagesData =>
        refine ⟨?_, ?_⟩
        · intro e he
          cases he
        · intro hw
          exact ⟨rfl, pagesData, rfl⟩

/-- C5 (amended): the scratch-directory cleanup call runs on the success
exit path; when the font-decomposition tool exits non-zero the conversion
aborts and no HTML file is written, but `temp_dir.cleanup()` (line 371) is
never reached on that failure path — there is no `try/finally` in
`pdf_to_html`, so the in-function cleanup is skipped (only the
`TemporaryDirectory` finalizer outside the function remains). -/
theorem scratch_cleanup_success_only (inp : DocInput) (scale : ℚ) :
    ((pdf_to_html inp scale).1 = .ok () → (pdf_to_html inp scale).2.cleaned = true) ∧
    (inp.openOk = true → inp.toolOk = false →
      (pdf_to_html inp scale).1 = .error (DocErr.fontErr FontErr.toolFail) ∧
      (pdf_to_html inp scale).2.written = false ∧
      (pdf_to_html inp scale).2.cleaned = false) := by
  constructor
  · unfold pdf_to_html
    split
    · intro hok; cases hok
    · cases hf : extract_fonts_from_pdf inp.toolOk inp.fontPages inp.ttfs inp.otfs with
      | error e => intro hok; cases hok
      | ok fonts =>
        cases hp : inp.pages.mapM
            (fun pg => extract_text_blocks pg inp.cosd inp.measure scale) with
        | error e => intro hok; cases hok
        | ok pagesData => intro _; rfl
  · intro hopen htool
    have hf : extract_fonts_from_pdf inp.toolOk inp.fontPages inp.ttfs inp.otfs =
        .error FontErr.toolFail := by
      unfold extract_fonts_from_pdf
      rw [htool]
      simp
    unfold pdf_to_html
    rw [hopen, hf]
    simp

/-- C6: for every line direction vector, the rotation normalization
(`atan2` to integer degrees, then `html_degrees = 360 - (degrees - 90)` with a
single wrap-around) always yields a value in `[0, 360)`; determinism is
immediate since the embedding is a pure function of the direction vector. -/
theorem rotation_normalization_range (v : ℝ × ℝ) :
    0 ≤ htmlDegrees (lineDegrees v) ∧ htmlDegrees (lineDegrees v) < 360 := by
  have h := lineDegrees_bounds v
  simp only [htmlDegrees]
  split <;> omega

/-- Evaluation of the extractor on the closed page `wpage` under the
always-successful measurer. -/
theorem extract_wpage_eval :
    extract_text_blocks wpage wcosd wmeasure 2 = .ok [wrun] := by
  have hlen : ("Hello" : String).length = 5 := rfl
  have hne : (("Hello" : String) = "") ↔ False := by simp
  norm_num [extract_text_blocks, processBlocks, processLines, processSpans, wpage, wspan,
    wcosd, wmeasure, wrun, resolveXref, runOf, displayWidth, htmlDegrees, round2, round_eq,
    Int.floor_eq_iff, List.find?, hlen, hne]

/-- Evaluation of the extractor on the closed page `wpage` under the
always-raising measurer. -/
theorem extract_wpage_fail_eval :
    extract_text_blocks wpage wcosd wmeasureFail 2 = .ok [wrunFail] := by
  have hlen : ("Hello" : String).length = 5 := rfl
  have hne : (("Hello" : String) = "") ↔ False := by simp
  norm_num [extract_text_blocks, processBlocks, processLines, processSpans, wpage, wspan,
    wcosd, wmeasureFail, wrunFail, resolveXref, runOf, displayWidth, htmlDegrees, round2,
    round_eq, Int.floor_eq_iff, List.find?, hlen, hne]

/-- Witness for C1 at the closed one-font document. -/
theorem font_resolution_total_coverage_witness :
    ((wfonts.map Prod.fst).Nodup ∧
      ∀ x ∈ (buildFontTable wfontPages).map Prod.fst, some x ∈ wfonts.map Prod.fst) ∧
    (wconsumed.map (fun c => c.1.1)).Nodup ∧
    ∀ c ∈ wconsumed, c.2 = some c.1.1 :=
  font_resolution_total_coverage true wfontPages wttfs [] wfonts wconsumed rfl

/-- Witness for C2 at the closed page `wpage` (discrepancy `5 > 1.0`,
letter spacing `1`). -/
theorem letter_spacing_formula_witness :
    (|wrun.width - wrun.calculated_width| ≤ 1 → wrun.letter_spacing = 0) ∧
    (1 < |wrun.width - wrun.calculated_width| →
      wrun.letter_spacing =
        round2 ((wrun.width - wrun.calculated_width) / (wrun.text.length : ℚ))) :=
  letter_spacing_formula wpage wcosd wmeasure 2 [wrun] extract_wpage_eval wrun
    (List.mem_singleton.2 rfl)

/-- Witness for C3 at the closed page `wpage` under the always-raising
measurer: the run is still emitted, with the geometry fallback. -/
theorem extractor_never_throws_per_run_witness :
    ∃ runs, extract_text_blocks wpage wcosd wmeasureFail 2 = .ok runs ∧
      runs.length = ((pageSpans wpage).filter (fun s => s.text ≠ "")).length ∧
      ∀ r ∈ runs, wmeasureFail r.font_xref r.text r.font_size = none →
        r.calculated_width = r.width :=
  extractor_never_throws_per_run wpage wcosd wmeasureFail 2 (by decide)

/-- Witness for C7 at the closed page `wpage` (rotation `0`: width is the
scaled bounding-box width `50`). -/
theorem display_width_rotation_cases_witness :
    0 ≤ (2 : ℚ) ∧
    (∃ s ∈ pageSpans wpage, wrun.text = s.text ∧
      (wrun.rotation = 0 → wrun.width = round2 ((s.bbox.x1 - s.bbox.x0) * 2)) ∧
      (wrun.rotation = 90 ∨ wrun.rotation = 270 →
        wrun.width = round2 ((s.bbox.y1 - s.bbox.y0) * 2)) ∧
      (wrun.rotation = 180 → wrun.width = round2 ((s.bbox.x1 - s.bbox.x0) * 2)) ∧
      (wrun.rotation ≠ 0 → wrun.rotation ≠ 90 → wrun.rotation ≠ 270 →
        wrun.rotation ≠ 180 →
        wrun.width = |round2 ((s.bbox.x1 - s.bbox.x0) * 2) / wcosd wrun.rotation|)) :=
  ⟨by norm_num,
    display_width_rotation_cases wpage wcosd wmeasure 2 [wrun] (by norm_num)
      (by decide) extract_wpage_eval wrun (List.mem_singleton.2 rfl)⟩

/-- Witness for C8 at the closed page `wpage` (rotation `0`: origin is the
scaled bounding-box corner `(20, 40)`). -/
theorem rotated_run_origin_witness :
    ∃ s ∈ pageSpans wpage, wrun.text = s.text ∧
      (wrun.rotation ≠ 0 →
        wrun.x = round2 (s.origin.1 * 2) ∧ wrun.y = round2 (s.origin.2 * 2)) ∧
      (wrun.rotation = 0 →
        wrun.x = round2 (s.bbox.x0 * 2) ∧ wrun.y = round2 (s.bbox.y0 * 2)) :=
  rotated_run_origin wpage wcosd wmeasure 2 [wrun] extract_wpage_eval wrun
    (List.mem_singleton.2 rfl)

/-- Witness for C10 at the closed page `wpage` under the always-raising
measurer: letter spacing `0`, measured width equal to display width. -/
theorem measurement_failure_zero_spacing_witness :
    wrunFail.letter_spacing = 0 ∧ wrunFail.calculated_width = wrunFail.width :=
  measurement_failure_zero_spacing wpage wcosd wmeasureFail 2 [wrunFail]
    extract_wpage_fail_eval wrunFail (List.mem_singleton.2 rfl) rfl

/-- Counterexample to C4 as stated: on `cexPages`/`cexTtfs` (two embedded
fonts, the second one's woff conversion raises) the whole resolution
returns an error — it does not continue with the other font's entry and a
null payload for the failing one. -/
theorem conversion_failure_cex :
    extract_fonts_from_pdf true cexPages cexTtfs [] = .error FontErr.convFail := rfl

/-- Witness for the amended C4 at the closed two-font document. -/
theorem conversion_failure_aborts_resolution_witness :
    ∃ e, extract_fonts_from_pdf true cexPages cexTtfs [] = .error e :=
  conversion_failure_aborts_resolution true cexPages cexTtfs []
    (Or.inl ⟨⟨"BBBBBB+G", false⟩, by decide, rfl⟩)

/-- Counterexample to C5 as stated: on `failInput` (tool exits non-zero)
the conversion aborts, yet the in-function scratch cleanup has not run. -/
theorem scratch_cleanup_cex :
    (pdf_to_html failInput 2).1 = .error (DocErr.fontErr FontErr.toolFail) ∧
    (pdf_to_html failInput 2).2.cleaned = false :=
  ⟨rfl, rfl⟩

/-- Witness for the amended C5 at the closed failing job. -/
theorem scratch_cleanup_success_only_witness :
    (pdf_to_html failInput 2).1 = .error (DocErr.fontErr FontErr.toolFail) ∧
    (pdf_to_html failInput 2).2.written = false ∧
    (pdf_to_html failInput 2).2.cleaned = false :=
  (scratch_cleanup_success_only failInput 2).2 rfl rfl

/-- Witness for C9 at the closed failing job: no output file is written. -/
theorem no_output_on_failure_witness :
    (pdf_to_html failInput 2).2.written = false :=
  (no_output_on_failure failInput 2).1 (DocErr.fontErr FontErr.toolFail) rfl

end PdfToHtml
